import Mathlib

set_option maxHeartbeats 1000000

/-!
Verification development for the VLC preparser.

The repository ships the public header `vlc_preparser.h` (request-id and flag
constants, the seek-argument record, the thumbnailer callback contract and the
declarations of `vlc_preparser_New` / `Push` / `GenerateThumbnail` / `Cancel` /
`Delete` / `SetTimeout`).  The engine behind those declarations is not part of
the tree, so its behaviour is modelled here from the specification: an engine
state (request table, monotonic id allocation, callback log, item-reference
counters) together with one executable transition per facade operation, plus
worker-completion and timer events.  Arbitrary interleavings of the concurrent
actors are represented by arbitrary finite action traces.
-/

namespace VLC

/-- Outcome of one domain sub-task: Ok, Timeout, Interrupted, or Error(kind). -/
inductive Outcome where
  | ok
  | timeout
  | interrupted
  | error (kind : Nat)
deriving DecidableEq

/-- Precedence rank of an outcome, encoding the total order
Error(kind) > Timeout > Interrupted > Ok used for status aggregation. -/
def rank : Outcome → Nat
  | Outcome.ok => 0
  | Outcome.interrupted => 1
  | Outcome.timeout => 2
  | Outcome.error _ => 3

/-- Modelled from the spec: the status-merge rule of the request coordinator
(the coordinator implementation is not under src/).  A newly arrived sub-task
outcome replaces the aggregate only when it is strictly higher in the
precedence order, so ties are broken by first arrival and Ok never overrides
a recorded failure. -/
def mergeStatus (old next : Outcome) : Outcome :=
  if rank old < rank next then next else old

/-- Aggregate status of a list of sub-task outcomes in arrival order,
starting from the initial Ok aggregate. -/
def aggregate (l : List Outcome) : Outcome :=
  l.foldl mergeStatus Outcome.ok

/-- Largest precedence rank occurring in a list of outcomes. -/
def maxRank (l : List Outcome) : Nat :=
  l.foldr (fun o m => max (rank o) m) 0

/-- Reserved invalid / match-all request id (header line 47). -/
def VLC_PREPARSER_REQ_ID_INVALID : Nat := 0

/-- Domain flag: preparse (header line 49). -/
def VLC_PREPARSER_TYPE_PARSE : Nat := 0x01

/-- Domain flag: fetch metadata locally (header line 50). -/
def VLC_PREPARSER_TYPE_FETCHMETA_LOCAL : Nat := 0x02

/-- Domain flag: fetch metadata over the network (header line 51). -/
def VLC_PREPARSER_TYPE_FETCHMETA_NET : Nat := 0x04

/-- Domain flag: thumbnail generation (header line 52). -/
def VLC_PREPARSER_TYPE_THUMBNAIL : Nat := 0x08

/-- Combined fetch-meta flag (header lines 53-54). -/
def VLC_PREPARSER_TYPE_FETCHMETA_ALL : Nat :=
  VLC_PREPARSER_TYPE_FETCHMETA_LOCAL ||| VLC_PREPARSER_TYPE_FETCHMETA_NET

/-- Option flag: allow user interaction (header line 56). -/
def VLC_PREPARSER_OPTION_INTERACT : Nat := 0x1000

/-- Option flag: report subitems (header line 57). -/
def VLC_PREPARSER_OPTION_SUBITEMS : Nat := 0x2000

/-- Mask of all four domain bits of a type_option word. -/
def domainBits : Nat :=
  VLC_PREPARSER_TYPE_PARSE ||| VLC_PREPARSER_TYPE_FETCHMETA_LOCAL |||
  VLC_PREPARSER_TYPE_FETCHMETA_NET ||| VLC_PREPARSER_TYPE_THUMBNAIL

/-- The domain flags selected by a type_option word, in the fixed submission
order Parse, FetchMetaLocal, FetchMetaNet, Thumbnail. -/
def domainList (t : Nat) : List Nat :=
  [VLC_PREPARSER_TYPE_PARSE, VLC_PREPARSER_TYPE_FETCHMETA_LOCAL,
   VLC_PREPARSER_TYPE_FETCHMETA_NET, VLC_PREPARSER_TYPE_THUMBNAIL].filter
    (fun b => t &&& b ≠ 0)

/-- Number of domain sub-tasks selected by a type_option word. -/
def domainCount (t : Nat) : Nat := (domainList t).length

/-- Selection of the six flag constants, one Bool per flag, in header order:
Parse, FetchMetaLocal, FetchMetaNet, Thumbnail, Interact, Subitems. -/
def composeFlags : Bool × Bool × Bool × Bool × Bool × Bool → Nat
  | (p, fl, fn, th, i, s) =>
    (cond p VLC_PREPARSER_TYPE_PARSE 0) |||
    (cond fl VLC_PREPARSER_TYPE_FETCHMETA_LOCAL 0) |||
    (cond fn VLC_PREPARSER_TYPE_FETCHMETA_NET 0) |||
    (cond th VLC_PREPARSER_TYPE_THUMBNAIL 0) |||
    (cond i VLC_PREPARSER_OPTION_INTERACT 0) |||
    (cond s VLC_PREPARSER_OPTION_SUBITEMS 0)

/-- Bitwise decomposition of a type_option word into its six flag Bools. -/
def decomposeFlags (n : Nat) : Bool × Bool × Bool × Bool × Bool × Bool :=
  (n &&& VLC_PREPARSER_TYPE_PARSE != 0,
   n &&& VLC_PREPARSER_TYPE_FETCHMETA_LOCAL != 0,
   n &&& VLC_PREPARSER_TYPE_FETCHMETA_NET != 0,
   n &&& VLC_PREPARSER_TYPE_THUMBNAIL != 0,
   n &&& VLC_PREPARSER_OPTION_INTERACT != 0,
   n &&& VLC_PREPARSER_OPTION_SUBITEMS != 0)

/-- Parameter names of the declared C signature of
vlc_preparser_GenerateThumbnail (header lines 203-207). -/
def generateThumbnailSignatureParams : List String :=
  ["preparser", "item", "seek_arg", "cbs", "cbs_userdata"]

/-- Parameter names documented by the same function's own doc comment
(header lines 186-207, the @param lines). -/
def generateThumbnailDocumentedParams : List String :=
  ["preparser", "item", "seek_arg", "timeout", "cbs", "cbs_userdata"]

/-- Seek kind of struct vlc_preparser_seek_arg (header lines 98-106). -/
inductive SeekType where
  | seekNone
  | seekTime
  | seekPos
deriving DecidableEq

/-- Seek precision hint of struct vlc_preparser_seek_arg (header lines 114-120). -/
inductive SeekSpeed where
  | precise
  | fast
deriving DecidableEq

/-- Struct vlc_preparser_seek_arg (header lines 96-121).  The payload union
holds a vlc_tick_t when seeking by time; the by-position payload is a C
double and is not observed by any claim, so it is left abstract. -/
structure SeekArg where
  type : SeekType
  time : Int
  speed : SeekSpeed
deriving DecidableEq

/-- Family of an accepted request: parse family (vlc_preparser_Push, terminal
callback on_preparse_ended) or thumbnail family (vlc_preparser_GenerateThumbnail,
terminal callback vlc_thumbnailer_cbs.on_ended). -/
inductive ReqKind where
  | parseFamily
  | thumbnailFamily
deriving DecidableEq

/-- Modelled from the spec: one record of the request table (the table
implementation is not under src/): identifier, family, remaining-domain
counter, aggregate status, whether a produced thumbnail picture is held,
cancellation mark, timer state and the stored seek descriptor. -/
structure ReqRecord where
  rid : Nat
  kind : ReqKind
  remaining : Nat
  agg : Outcome
  pic : Bool
  cancelRequested : Bool
  timerArmed : Bool
  seek : SeekArg
deriving DecidableEq

/-- One delivered terminal callback: the request id, which callback fired
(on_preparse_ended for parse family, on_ended for thumbnail family), the
status argument and whether the thumbnail picture argument was non-null. -/
structure CbEvent where
  rid : Nat
  kind : ReqKind
  status : Outcome
  picNonNull : Bool
deriving DecidableEq

/-- Modelled from the spec: the preparser engine state (struct
vlc_preparser_t's implementation is not under src/): configuration, running
flag, monotonic id counter, request table, and observation logs — the ids
returned to callers in order, the terminal callbacks delivered in order, and
the engine-caused input-item hold / release counters. -/
structure Engine where
  cfgTypes : Nat
  cfgTimeout : Nat
  running : Bool
  nextId : Nat
  table : List ReqRecord
  cbLog : List CbEvent
  allocLog : List Nat
  holdCount : Nat
  releaseCount : Nat
deriving DecidableEq

/-- Request ids of the table records, in table order. -/
def ridsOf (tbl : List ReqRecord) : List Nat := tbl.map ReqRecord.rid

/-- Number of delivered terminal callbacks for a given request id. -/
def cbCount (log : List CbEvent) (n : Nat) : Nat :=
  log.countP (fun c => c.rid == n)

/-- Fresh engine state as built by vlc_preparser_New. -/
def mkEngine (types tmo : Nat) : Engine :=
  { cfgTypes := types, cfgTimeout := tmo, running := true, nextId := 1,
    table := [], cbLog := [], allocLog := [], holdCount := 0, releaseCount := 0 }

/-- Modelled from the spec: vlc_preparser_New (implementation not under
src/) validates that cfg.types selects at least one domain and otherwise
builds a running engine with an empty table and the id counter at 1. -/
def vlc_preparser_New (types tmo : Nat) : Option Engine :=
  if types &&& domainBits = 0 then none else some (mkEngine types tmo)

/-- Merging one sub-task outcome into a record: aggregate status via
`mergeStatus`, a produced picture is kept only for a thumbnail-family
record whose sub-task succeeded, and the remaining-domain counter drops. -/
def applyOutcome (r : ReqRecord) (oc : Outcome) (pic : Bool) : ReqRecord :=
  { r with
    agg := mergeStatus r.agg oc,
    pic := r.pic || (pic && (r.kind == ReqKind.thumbnailFamily) && (oc == Outcome.ok)),
    remaining := r.remaining - 1 }

/-- The terminal callback produced for a record in its terminal transition:
the picture argument is non-null only when a picture is held and the
aggregate status is Ok. -/
def termCb (r : ReqRecord) : CbEvent :=
  { rid := r.rid, kind := r.kind, status := r.agg,
    picNonNull := r.pic && (r.agg == Outcome.ok) }

/-- Modelled from the spec: sub-task completion aggregation in the request
table (coordinator implementation not under src/).  The first record with the
given id absorbs the outcome; if its remaining-domain counter reaches zero the
terminal transition runs: the record is removed, one terminal callback is
emitted and one item release is counted.  Returns the new table, the emitted
callbacks and the number of item releases. -/
def completeInTable : List ReqRecord → Nat → Outcome → Bool →
    List ReqRecord × List CbEvent × Nat
  | [], _, _, _ => ([], [], 0)
  | r :: rest, rid, oc, pic =>
    if r.rid = rid then
      let r' := applyOutcome r oc pic
      if r'.remaining = 0 then (rest, [termCb r'], 1)
      else (r' :: rest, [], 0)
    else
      let p := completeInTable rest rid oc pic
      (r :: p.1, p.2.1, p.2.2)

/-- Modelled from the spec: a domain worker of request `rid` terminates with
outcome `oc` (`pic` says whether a thumbnail picture was produced); the
coordinator merges the outcome and runs the terminal transition when this was
the last outstanding sub-task. -/
def subtaskComplete (e : Engine) (rid : Nat) (oc : Outcome) (pic : Bool) : Engine :=
  { e with table := (completeInTable e.table rid oc pic).1,
           cbLog := e.cbLog ++ (completeInTable e.table rid oc pic).2.1,
           releaseCount := e.releaseCount + (completeInTable e.table rid oc pic).2.2 }

/-- Modelled from the spec: vlc_preparser_Push (implementation not under
src/).  Rejects — returning VLC_PREPARSER_REQ_ID_INVALID and leaving the
engine untouched — when the domain bitmask of type_option is empty or not a
subset of the configured types, when the callback set is absent, or when the
engine is shutting down.  On acceptance it holds the item, allocates the next
id, and inserts a parse-family record whose remaining-domain counter is the
number of selected domains. -/
def vlc_preparser_Push (e : Engine) (type_option : Nat) (cbs : Bool) :
    Engine × Nat :=
  if type_option &&& domainBits = 0 ∨
      (type_option &&& domainBits) &&& e.cfgTypes ≠ type_option &&& domainBits ∨
      cbs = false ∨ e.running = false then
    (e, VLC_PREPARSER_REQ_ID_INVALID)
  else
    ({ e with
        nextId := e.nextId + 1,
        table := e.table ++
          [{ rid := e.nextId, kind := ReqKind.parseFamily,
             remaining := domainCount (type_option &&& domainBits),
             agg := Outcome.ok, pic := false,
             cancelRequested := false, timerArmed := e.cfgTimeout != 0,
             seek := { type := SeekType.seekNone, time := 0,
                       speed := SeekSpeed.precise } }],
        allocLog := e.allocLog ++ [e.nextId],
        holdCount := e.holdCount + 1 }, e.nextId)

/-- Modelled from the spec: vlc_preparser_GenerateThumbnail (implementation
not under src/).  Rejects — returning VLC_PREPARSER_REQ_ID_INVALID and
leaving the engine untouched — when the Thumbnail domain was not configured,
when the callback set is absent, or when the engine is shutting down.  On
acceptance it holds the item and inserts a thumbnail-family record with
exactly one sub-task on the thumbnail executor. -/
def vlc_preparser_GenerateThumbnail (e : Engine) (seek_arg : SeekArg)
    (cbs : Bool) : Engine × Nat :=
  if VLC_PREPARSER_TYPE_THUMBNAIL &&& e.cfgTypes ≠ VLC_PREPARSER_TYPE_THUMBNAIL ∨
      cbs = false ∨ e.running = false then
    (e, VLC_PREPARSER_REQ_ID_INVALID)
  else
    ({ e with
        nextId := e.nextId + 1,
        table := e.table ++
          [{ rid := e.nextId, kind := ReqKind.thumbnailFamily,
             remaining := 1, agg := Outcome.ok, pic := false,
             cancelRequested := false, timerArmed := e.cfgTimeout != 0,
             seek := seek_arg }],
        allocLog := e.allocLog ++ [e.nextId],
        holdCount := e.holdCount + 1 }, e.nextId)

/-- Modelled from the spec: vlc_preparser_Cancel (implementation not under
src/).  Targets every record when the id is the match-all sentinel 0 and at
most the one matching record otherwise; each targeted record gets executor
cancellation of its sub-tasks (marked here), which does not itself deliver
the terminal callback.  Returns the count of targeted records. -/
def vlc_preparser_Cancel (e : Engine) (rid : Nat) : Engine × Nat :=
  ({ e with table := e.table.map (fun r =>
      if rid == VLC_PREPARSER_REQ_ID_INVALID || r.rid == rid then
        { r with cancelRequested := true }
      else r) },
   (e.table.filter (fun r =>
      rid == VLC_PREPARSER_REQ_ID_INVALID || r.rid == rid)).length)

/-- Modelled from the spec: the single-shot per-request timer fires
(timer implementation not under src/).  If the request is still live and its
timer is still armed, the Timeout tag is merged into the aggregate status,
the timer is disarmed (double-fire impossible) and the sub-tasks get
executor cancellation; stragglers then join through `subtaskComplete`. -/
def fireTimer (e : Engine) (rid : Nat) : Engine :=
  { e with table := e.table.map (fun r =>
      if r.rid == rid && r.timerArmed then
        { r with agg := mergeStatus r.agg Outcome.timeout,
                 timerArmed := false, cancelRequested := true }
      else r) }

/-- Terminal callbacks produced when destroy drains the table: each remaining
record's cancelled sub-tasks join with Interrupted and its terminal
transition runs. -/
def drainTable (tbl : List ReqRecord) : List CbEvent :=
  tbl.map (fun r => termCb { r with agg := mergeStatus r.agg Outcome.interrupted })

/-- Modelled from the spec: vlc_preparser_Delete (implementation not under
src/).  Sets the engine to shutting-down (new submissions rejected), issues
cancel-all, then drains: every outstanding request joins with Interrupted and
delivers its terminal callback, its item hold is released, and the table is
destroyed empty. -/
def vlc_preparser_Delete (e : Engine) : Engine :=
  let e1 := (vlc_preparser_Cancel { e with running := false }
              VLC_PREPARSER_REQ_ID_INVALID).1
  { e1 with table := [],
            cbLog := e1.cbLog ++ drainTable e1.table,
            releaseCount := e1.releaseCount + e1.table.length }

/-- Modelled from the spec: the deprecated vlc_preparser_SetTimeout
(implementation not under src/) mutates the engine-wide timeout used for
newly accepted requests only; in-flight timers are unaffected. -/
def vlc_preparser_SetTimeout (e : Engine) (tmo : Nat) : Engine :=
  { e with cfgTimeout := tmo }

/-- One engine event: a facade call on a caller thread, a worker completion,
or a timer fire.  Arbitrary interleavings of the concurrent actors are
arbitrary lists of these. -/
inductive Action where
  | push (type_option : Nat) (cbs : Bool)
  | thumbnail (seek_arg : SeekArg) (cbs : Bool)
  | subtaskDone (rid : Nat) (oc : Outcome) (pic : Bool)
  | cancel (rid : Nat)
  | timerFire (rid : Nat)
  | setTimeout (tmo : Nat)
  | delete
deriving DecidableEq

/-- Apply one event to the engine state. -/
def step (e : Engine) : Action → Engine
  | Action.push type_option cbs => (vlc_preparser_Push e type_option cbs).1
  | Action.thumbnail seek_arg cbs => (vlc_preparser_GenerateThumbnail e seek_arg cbs).1
  | Action.subtaskDone rid oc pic => subtaskComplete e rid oc pic
  | Action.cancel rid => (vlc_preparser_Cancel e rid).1
  | Action.timerFire rid => fireTimer e rid
  | Action.setTimeout tmo => vlc_preparser_SetTimeout e tmo
  | Action.delete => vlc_preparser_Delete e

/-- Engine state reached from a fresh engine by a finite event trace. -/
def run (types tmo : Nat) (acts : List Action) : Engine :=
  acts.foldl step (mkEngine types tmo)

/-- The reachable-state invariant of the engine: ids are allocated 1,2,…
with the table holding only allocated, pairwise-distinct, not-yet-terminal
ids; live records have outstanding sub-tasks and no delivered callback; at
most one terminal callback exists per id, callbacks carry pictures only on
Ok thumbnails, every accepted id is live or has exactly one delivered
callback, item holds balance releases plus live records, and a shut-down
engine has an empty table. -/
structure Inv (e : Engine) : Prop where
  nextPos : 1 ≤ e.nextId
  alloc : e.allocLog = List.range' 1 (e.nextId - 1)
  nodup : (ridsOf e.table).Nodup
  liveBound : ∀ r ∈ e.table, 1 ≤ r.rid ∧ r.rid < e.nextId
  liveRem : ∀ r ∈ e.table, 1 ≤ r.remaining
  livePic : ∀ r ∈ e.table, r.pic = true → r.kind = ReqKind.thumbnailFamily
  liveNoCb : ∀ r ∈ e.table, cbCount e.cbLog r.rid = 0
  cbBound : ∀ c ∈ e.cbLog, 1 ≤ c.rid ∧ c.rid < e.nextId
  cbOnce : ∀ n, cbCount e.cbLog n ≤ 1
  cbPic : ∀ c ∈ e.cbLog, c.picNonNull = true →
    c.status = Outcome.ok ∧ c.kind = ReqKind.thumbnailFamily
  accEnd : ∀ n ∈ e.allocLog, n ∈ ridsOf e.table ∨ cbCount e.cbLog n = 1
  balance : e.holdCount = e.releaseCount + e.table.length
  down : e.running = false → e.table = []

/-- A dead engine: shut down with an empty table. -/
def Dead (e : Engine) : Prop := e.running = false ∧ e.table = []

lemma rank_mergeStatus (a b : Outcome) :
    rank (mergeStatus a b) = max (rank a) (rank b) := by
  unfold mergeStatus
  split <;> omega

lemma mergeStatus_ok_right (a : Outcome) : mergeStatus a Outcome.ok = a := by
  unfold mergeStatus
  split
  · next h => simp [rank] at h
  · rfl

lemma mergeStatus_interrupted_ne_ok (a : Outcome) :
    mergeStatus a Outcome.interrupted ≠ Outcome.ok := by
  cases a <;> simp [mergeStatus, rank]

lemma maxRank_cons (a : Outcome) (l : List Outcome) :
    maxRank (a :: l) = max (rank a) (maxRank l) := rfl

lemma rank_le_maxRank_cons (a : Outcome) (l : List Outcome) :
    rank a ≤ maxRank (a :: l) := by
  rw [maxRank_cons]; omega

lemma foldl_merge_spec (l : List Outcome) : ∀ cur : Outcome,
    rank (l.foldl mergeStatus cur) = maxRank (cur :: l) ∧
    (cur :: l).find? (fun o => rank o == maxRank (cur :: l)) =
      some (l.foldl mergeStatus cur) := by
  induction l with
  | nil =>
    intro cur
    have h1 : maxRank [cur] = rank cur := by simp [maxRank]
    refine ⟨by simpa using h1.symm, ?_⟩
    rw [h1]
    simp [List.find?]
  | cons x xs ih =>
    intro cur
    have hM : maxRank (cur :: x :: xs) =
        max (rank cur) (max (rank x) (maxRank xs)) := rfl
    rcases Nat.lt_or_ge (rank cur) (rank x) with hlt | hge
    · have hx : mergeStatus cur x = x := by unfold mergeStatus; rw [if_pos hlt]
      have hM2 : maxRank (cur :: x :: xs) = maxRank (x :: xs) := by
        rw [hM, maxRank_cons]; omega
      obtain ⟨ih1, ih2⟩ := ih x
      have hcurF : (rank cur == maxRank (x :: xs)) = false := by
        have : rank x ≤ maxRank (x :: xs) := rank_le_maxRank_cons x xs
        simp only [beq_eq_false_iff_ne, ne_eq]
        omega
      constructor
      · rw [List.foldl_cons, hx, ih1, hM2]
      · rw [hM2, List.foldl_cons, hx,
          List.find?_cons_of_neg _ (by simp [hcurF]), ih2]
    · have hx : mergeStatus cur x = cur := by
        unfold mergeStatus; rw [if_neg (by omega)]
      have hM2 : maxRank (cur :: x :: xs) = maxRank (cur :: xs) := by
        rw [hM, maxRank_cons]; omega
      obtain ⟨ih1, ih2⟩ := ih cur
      constructor
      · rw [List.foldl_cons, hx, ih1, hM2]
      · rw [hM2, List.foldl_cons, hx]
        by_cases hc : rank cur = maxRank (cur :: xs)
        · rw [List.find?_cons_of_pos _ (by simp [hc])]
          rw [List.find?_cons_of_pos _ (by simp [hc])] at ih2
          exact ih2
        · have hxF : (rank x == maxRank (cur :: xs)) = false := by
            have h1 : rank cur ≤ maxRank (cur :: xs) := rank_le_maxRank_cons cur xs
            simp only [beq_eq_false_iff_ne, ne_eq]
            omega
          rw [List.find?_cons_of_neg _ (by simp [hc]),
            List.find?_cons_of_neg _ (by simp [hxF])]
          rw [List.find?_cons_of_neg _ (by simp [hc])] at ih2
          exact ih2

lemma domainCount_pos : ∀ t < 16, t ≠ 0 → 1 ≤ domainCount t := by decide

lemma domainBits_eq : domainBits = 15 := by decide

lemma cbCount_append (l₁ l₂ : List CbEvent) (n : Nat) :
    cbCount (l₁ ++ l₂) n = cbCount l₁ n + cbCount l₂ n :=
  List.countP_append _ _ _

lemma cbCount_nil (n : Nat) : cbCount [] n = 0 := rfl

lemma cbCount_singleton (c : CbEvent) (n : Nat) :
    cbCount [c] n = if c.rid = n then 1 else 0 := by
  simp [cbCount, List.countP_cons]

lemma cbCount_eq_zero {log : List CbEvent} {n : Nat}
    (h : ∀ c ∈ log, c.rid ≠ n) : cbCount log n = 0 := by
  rw [cbCount, List.countP_eq_zero]
  intro c hc
  simpa using h c hc

lemma ridsOf_append (t₁ t₂ : List ReqRecord) :
    ridsOf (t₁ ++ t₂) = ridsOf t₁ ++ ridsOf t₂ := List.map_append _ _ _

lemma ridsOf_cons (r : ReqRecord) (t : List ReqRecord) :
    ridsOf (r :: t) = r.rid :: ridsOf t := rfl

lemma mem_ridsOf_of_mem {r : ReqRecord} {tbl : List ReqRecord} (h : r ∈ tbl) :
    r.rid ∈ ridsOf tbl := List.mem_map_of_mem _ h

lemma exists_of_mem_ridsOf {n : Nat} {tbl : List ReqRecord}
    (h : n ∈ ridsOf tbl) : ∃ r ∈ tbl, r.rid = n := by
  rcases List.mem_map.1 h with ⟨r, hr, he⟩
  exact ⟨r, hr, he⟩

lemma ridsOf_map_update (tbl : List ReqRecord) (f : ReqRecord → ReqRecord)
    (hf : ∀ r, (f r).rid = r.rid) : ridsOf (tbl.map f) = ridsOf tbl := by
  rw [ridsOf, ridsOf, List.map_map]
  exact List.map_congr_left (fun r _ => hf r)

lemma applyOutcome_rid (r : ReqRecord) (oc : Outcome) (pic : Bool) :
    (applyOutcome r oc pic).rid = r.rid := rfl

lemma completeInTable_not_mem (rid : Nat) (oc : Outcome) (pic : Bool) :
    ∀ tbl : List ReqRecord, rid ∉ ridsOf tbl →
      completeInTable tbl rid oc pic = (tbl, [], 0) := by
  intro tbl
  induction tbl with
  | nil => intro _; rfl
  | cons r rest ih =>
    intro h
    rw [ridsOf_cons, List.mem_cons] at h
    push_neg at h
    have hr : ¬ r.rid = rid := fun he => h.1 he.symm
    simp only [completeInTable, if_neg hr, ih h.2]

lemma completeInTable_mem (rid : Nat) (oc : Outcome) (pic : Bool) :
    ∀ tbl : List ReqRecord, rid ∈ ridsOf tbl →
      ∃ pre r post, tbl = pre ++ r :: post ∧ rid ∉ ridsOf pre ∧ r.rid = rid ∧
        (((applyOutcome r oc pic).remaining = 0 ∧
            completeInTable tbl rid oc pic =
              (pre ++ post, [termCb (applyOutcome r oc pic)], 1)) ∨
         ((applyOutcome r oc pic).remaining ≠ 0 ∧
            completeInTable tbl rid oc pic =
              (pre ++ applyOutcome r oc pic :: post, [], 0))) := by
  intro tbl
  induction tbl with
  | nil => intro h; simp [ridsOf] at h
  | cons q rest ih =>
    intro h
    by_cases hq : q.rid = rid
    · refine ⟨[], q, rest, by simp, by simp [ridsOf], hq, ?_⟩
      by_cases h0 : (applyOutcome q oc pic).remaining = 0
      · exact Or.inl ⟨h0, by simp [completeInTable, hq, h0]⟩
      · exact Or.inr ⟨h0, by simp [completeInTable, hq, h0]⟩
    · have hrest : rid ∈ ridsOf rest := by
        rw [ridsOf_cons, List.mem_cons] at h
        rcases h with h | h
        · exact absurd h.symm hq
        · exact h
      obtain ⟨pre, r, post, heq, hpre, hrid, hcase⟩ := ih hrest
      refine ⟨q :: pre, r, post, by rw [heq]; rfl, ?_, hrid, ?_⟩
      · rw [ridsOf_cons, List.mem_cons]
        push_neg
        exact ⟨fun he => hq he.symm, hpre⟩
      · rcases hcase with ⟨h0, hc⟩ | ⟨h0, hc⟩
        · exact Or.inl ⟨h0, by
            simp only [completeInTable, if_neg hq, hc, List.cons_append]⟩
        · exact Or.inr ⟨h0, by
            simp only [completeInTable, if_neg hq, hc, List.cons_append]⟩

lemma filter_rid_length (rid : Nat) : ∀ tbl : List ReqRecord,
    (ridsOf tbl).Nodup →
      (rid ∈ ridsOf tbl →
        (tbl.filter (fun r => r.rid == rid)).length = 1) ∧
      (rid ∉ ridsOf tbl →
        (tbl.filter (fun r => r.rid == rid)).length = 0) := by
  intro tbl
  induction tbl with
  | nil => intro _; exact ⟨fun h => by simp [ridsOf] at h, fun _ => rfl⟩
  | cons q rest ih =>
    intro hnd
    rw [ridsOf_cons, List.nodup_cons] at hnd
    obtain ⟨hq, hrest⟩ := hnd
    obtain ⟨ih1, ih2⟩ := ih hrest
    by_cases he : q.rid = rid
    · constructor
      · intro _
        rw [List.filter_cons_of_pos (by simp [he])]
        have : rid ∉ ridsOf rest := he ▸ hq
        simp [ih2 this]
      · intro hmem
        exact absurd (by rw [ridsOf_cons, he]; exact List.mem_cons_self _ _) hmem
    · constructor
      · intro hmem
        rw [ridsOf_cons, List.mem_cons] at hmem
        rcases hmem with hmem | hmem
        · exact absurd hmem.symm he
        · rw [List.filter_cons_of_neg (by simp [he])]
          exact ih1 hmem
      · intro hmem
        rw [ridsOf_cons, List.mem_cons] at hmem
        push_neg at hmem
        rw [List.filter_cons_of_neg (by simp [he])]
        exact ih2 hmem.2

lemma bool_ne_false {b : Bool} (h : ¬ b = false) : b = true := by
  cases b
  · exact absurd rfl h
  · rfl

lemma nodup_decomp {A B : List Nat} {n : Nat}
    (h : (A ++ n :: B).Nodup) : n ∉ A ∧ n ∉ B ∧ (A ++ B).Nodup := by
  rw [List.nodup_append] at h
  obtain ⟨hA, hnB, hdisj⟩ := h
  rw [List.nodup_cons] at hnB
  refine ⟨fun hnA => hdisj hnA (List.mem_cons_self _ _), hnB.1, ?_⟩
  rw [List.nodup_append]
  exact ⟨hA, hnB.2, fun a ha hb => hdisj ha (List.mem_cons_of_mem _ hb)⟩

lemma applyOutcome_pic {r : ReqRecord} {oc : Outcome} {pic : Bool}
    (h : (applyOutcome r oc pic).pic = true) :
    r.pic = true ∨ r.kind = ReqKind.thumbnailFamily := by
  simp only [applyOutcome, Bool.or_eq_true, Bool.and_eq_true, beq_iff_eq] at h
  rcases h with h | h
  · exact Or.inl h
  · exact Or.inr h.1.2

lemma termCb_pic {r : ReqRecord} (h : (termCb r).picNonNull = true) :
    (termCb r).status = Outcome.ok ∧ r.pic = true := by
  simp only [termCb, Bool.and_eq_true, beq_iff_eq] at h
  exact ⟨h.2, h.1⟩

lemma inv_terminal (e : Engine) (hI : Inv e) (pre post : List ReqRecord)
    (r r' : ReqRecord) (heq : e.table = pre ++ r :: post)
    (hrid' : r'.rid = r.rid) (hkind' : r'.kind = r.kind)
    (hpic' : r'.pic = true → r.pic = true ∨ r.kind = ReqKind.thumbnailFamily) :
    Inv { e with
          table := pre ++ post,
          cbLog := e.cbLog ++ [termCb r'],
          releaseCount := e.releaseCount + 1 } := by
  have hrmem : r ∈ e.table := by
    rw [heq]; exact List.mem_append_right _ (List.mem_cons_self _ _)
  have hrids : ridsOf e.table = ridsOf pre ++ r.rid :: ridsOf post := by
    rw [heq, ridsOf_append, ridsOf_cons]
  have hnd := hI.nodup
  rw [hrids] at hnd
  obtain ⟨hpre2, hpost2, hnd2⟩ := nodup_decomp hnd
  have hsub : ∀ x, x ∈ pre ++ post → x ∈ e.table := by
    intro x hx
    rw [heq]
    rcases List.mem_append.1 hx with h | h
    · exact List.mem_append_left _ h
    · exact List.mem_append_right _ (List.mem_cons_of_mem _ h)
  have hcb_rid : (termCb r').rid = r.rid := by
    simp only [termCb]; exact hrid'
  refine ⟨hI.nextPos, hI.alloc, ?_, ?_, ?_, ?_, ?_, ?_, ?_, ?_, ?_, ?_, ?_⟩
  · show (ridsOf (pre ++ post)).Nodup
    rw [ridsOf_append]
    exact hnd2
  · intro x hx
    exact hI.liveBound x (hsub x hx)
  · intro x hx
    exact hI.liveRem x (hsub x hx)
  · intro x hx
    exact hI.livePic x (hsub x hx)
  · intro x hx
    show cbCount (e.cbLog ++ [termCb r']) x.rid = 0
    rw [cbCount_append, hI.liveNoCb x (hsub x hx), cbCount_singleton, hcb_rid]
    have hne : x.rid ≠ r.rid := by
      rcases List.mem_append.1 hx with h | h
      · intro he; exact hpre2 (he ▸ mem_ridsOf_of_mem h)
      · intro he; exact hpost2 (he ▸ mem_ridsOf_of_mem h)
    rw [if_neg (fun h => hne h.symm)]
  · intro c hc
    rcases List.mem_append.1 hc with h | h
    · have := hI.cbBound c h
      exact ⟨this.1, this.2⟩
    · rw [List.mem_singleton] at h
      subst h
      rw [hcb_rid]
      exact hI.liveBound r hrmem
  · intro n
    show cbCount (e.cbLog ++ [termCb r']) n ≤ 1
    rw [cbCount_append, cbCount_singleton, hcb_rid]
    by_cases hn : r.rid = n
    · rw [if_pos hn, ← hn, hI.liveNoCb r hrmem]
    · rw [if_neg hn, Nat.add_zero]
      exact hI.cbOnce n
  · intro c hc hp
    rcases List.mem_append.1 hc with h | h
    · exact hI.cbPic c h hp
    · rw [List.mem_singleton] at h
      subst h
      obtain ⟨hst, hpic⟩ := termCb_pic hp
      refine ⟨hst, ?_⟩
      show r'.kind = ReqKind.thumbnailFamily
      rw [hkind']
      rcases hpic' hpic with h2 | h2
      · exact hI.livePic r hrmem h2
      · exact h2
  · intro n hn
    rcases hI.accEnd n hn with h | h
    · rw [hrids] at h
      rcases List.mem_append.1 h with h2 | h2
      · exact Or.inl (by
          show n ∈ ridsOf (pre ++ post)
          rw [ridsOf_append]
          exact List.mem_append_left _ h2)
      · rcases List.mem_cons.1 h2 with h3 | h3
        · refine Or.inr ?_
          show cbCount (e.cbLog ++ [termCb r']) n = 1
          rw [cbCount_append, cbCount_singleton, hcb_rid, if_pos h3.symm,
            h3, hI.liveNoCb r hrmem]
        · exact Or.inl (by
            show n ∈ ridsOf (pre ++ post)
            rw [ridsOf_append]
            exact List.mem_append_right _ h3)
    · refine Or.inr ?_
      show cbCount (e.cbLog ++ [termCb r']) n = 1
      rw [cbCount_append, cbCount_singleton, hcb_rid]
      have hne : r.rid ≠ n := by
        intro he
        have := hI.liveNoCb r hrmem
        rw [he, h] at this
        exact absurd this (by omega)
      rw [if_neg hne, Nat.add_zero, h]
  · show e.holdCount = e.releaseCount + 1 + (pre ++ post).length
    have hb := hI.balance
    rw [heq] at hb
    simp only [List.length_append, List.length_cons] at hb ⊢
    omega
  · intro h
    exfalso
    have h2 := hI.down h
    rw [h2] at heq
    exact absurd heq.symm (by simp)

lemma inv_update (e : Engine) (hI : Inv e) (pre post : List ReqRecord)
    (r r' : ReqRecord) (heq : e.table = pre ++ r :: post)
    (hrid' : r'.rid = r.rid) (hkind' : r'.kind = r.kind)
    (hrem' : 1 ≤ r'.remaining)
    (hpic' : r'.pic = true → r.pic = true ∨ r.kind = ReqKind.thumbnailFamily) :
    Inv { e with table := pre ++ r' :: post } := by
  have hrmem : r ∈ e.table := by
    rw [heq]; exact List.mem_append_right _ (List.mem_cons_self _ _)
  have hrids2 : ridsOf (pre ++ r' :: post) = ridsOf e.table := by
    rw [heq, ridsOf_append, ridsOf_cons, ridsOf_append, ridsOf_cons, hrid']
  have hcases : ∀ x, x ∈ pre ++ r' :: post → x ∈ e.table ∨ x = r' := by
    intro x hx
    rcases List.mem_append.1 hx with h | h
    · exact Or.inl (by rw [heq]; exact List.mem_append_left _ h)
    · rcases List.mem_cons.1 h with h2 | h2
      · exact Or.inr h2
      · exact Or.inl (by
          rw [heq]
          exact List.mem_append_right _ (List.mem_cons_of_mem _ h2))
  refine ⟨hI.nextPos, hI.alloc, ?_, ?_, ?_, ?_, ?_, hI.cbBound, hI.cbOnce,
    hI.cbPic, ?_, ?_, ?_⟩
  · show (ridsOf (pre ++ r' :: post)).Nodup
    rw [hrids2]
    exact hI.nodup
  · intro x hx
    rcases hcases x hx with h | h
    · exact hI.liveBound x h
    · rw [h, hrid']
      exact hI.liveBound r hrmem
  · intro x hx
    rcases hcases x hx with h | h
    · exact hI.liveRem x h
    · rw [h]
      exact hrem'
  · intro x hx
    rcases hcases x hx with h | h
    · exact hI.livePic x h
    · rw [h]
      intro hp
      rw [hkind']
      rcases hpic' hp with h2 | h2
      · exact hI.livePic r hrmem h2
      · exact h2
  · intro x hx
    rcases hcases x hx with h | h
    · exact hI.liveNoCb x h
    · show cbCount e.cbLog x.rid = 0
      rw [h, hrid']
      exact hI.liveNoCb r hrmem
  · intro n hn
    rcases hI.accEnd n hn with h | h
    · exact Or.inl (by
        show n ∈ ridsOf (pre ++ r' :: post)
        rw [hrids2]
        exact h)
    · exact Or.inr h
  · show e.holdCount = e.releaseCount + (pre ++ r' :: post).length
    have hb := hI.balance
    rw [heq] at hb
    simp only [List.length_append, List.length_cons] at hb ⊢
    omega
  · intro h
    exfalso
    have h2 := hI.down h
    rw [h2] at heq
    exact absurd heq.symm (by simp)

lemma subtaskComplete_not_mem (e : Engine) (rid : Nat) (oc : Outcome)
    (pic : Bool) (h : rid ∉ ridsOf e.table) :
    subtaskComplete e rid oc pic = e := by
  rw [subtaskComplete, completeInTable_not_mem rid oc pic e.table h]
  simp

lemma inv_subtaskComplete (e : Engine) (hI : Inv e) (rid : Nat) (oc : Outcome)
    (pic : Bool) : Inv (subtaskComplete e rid oc pic) := by
  by_cases hm : rid ∈ ridsOf e.table
  · obtain ⟨pre, r, post, heq, hpre, hrid, hcase⟩ :=
      completeInTable_mem rid oc pic e.table hm
    rcases hcase with ⟨h0, hc⟩ | ⟨h0, hc⟩
    · have h1 : (completeInTable e.table rid oc pic).1 = pre ++ post := by
        rw [hc]
      have h2 : (completeInTable e.table rid oc pic).2.1 =
          [termCb (applyOutcome r oc pic)] := by rw [hc]
      have h3 : (completeInTable e.table rid oc pic).2.2 = 1 := by rw [hc]
      rw [subtaskComplete, h1, h2, h3]
      exact inv_terminal e hI pre post r (applyOutcome r oc pic) heq
        (applyOutcome_rid r oc pic) rfl (fun hp => applyOutcome_pic hp)
    · have h1 : (completeInTable e.table rid oc pic).1 =
          pre ++ applyOutcome r oc pic :: post := by rw [hc]
      have h2 : (completeInTable e.table rid oc pic).2.1 = [] := by rw [hc]
      have h3 : (completeInTable e.table rid oc pic).2.2 = 0 := by rw [hc]
      rw [subtaskComplete, h1, h2, h3]
      simp only [List.append_nil, Nat.add_zero]
      exact inv_update e hI pre post r (applyOutcome r oc pic) heq
        (applyOutcome_rid r oc pic) rfl (by omega)
        (fun hp => applyOutcome_pic hp)
  · rw [subtaskComplete_not_mem e rid oc pic hm]
    exact hI

lemma inv_map_update (e : Engine) (hI : Inv e) (f : ReqRecord → ReqRecord)
    (hrid : ∀ r, (f r).rid = r.rid)
    (hrem : ∀ r, (f r).remaining = r.remaining)
    (hpic : ∀ r, (f r).pic = r.pic)
    (hkind : ∀ r, (f r).kind = r.kind) :
    Inv { e with table := e.table.map f } := by
  have hrids : ridsOf (e.table.map f) = ridsOf e.table :=
    ridsOf_map_update e.table f hrid
  refine ⟨hI.nextPos, hI.alloc, ?_, ?_, ?_, ?_, ?_, hI.cbBound, hI.cbOnce,
    hI.cbPic, ?_, ?_, ?_⟩
  · show (ridsOf (e.table.map f)).Nodup
    rw [hrids]
    exact hI.nodup
  · intro r hr
    rcases List.mem_map.1 hr with ⟨s, hs, hfs⟩
    rw [← hfs, hrid]
    exact hI.liveBound s hs
  · intro r hr
    rcases List.mem_map.1 hr with ⟨s, hs, hfs⟩
    rw [← hfs, hrem]
    exact hI.liveRem s hs
  · intro r hr
    rcases List.mem_map.1 hr with ⟨s, hs, hfs⟩
    rw [← hfs, hpic, hkind]
    exact hI.livePic s hs
  · intro r hr
    rcases List.mem_map.1 hr with ⟨s, hs, hfs⟩
    show cbCount e.cbLog r.rid = 0
    rw [← hfs, hrid]
    exact hI.liveNoCb s hs
  · intro n hn
    rcases hI.accEnd n hn with h | h
    · exact Or.inl (by
        show n ∈ ridsOf (e.table.map f)
        rw [hrids]
        exact h)
    · exact Or.inr h
  · show e.holdCount = e.releaseCount + (e.table.map f).length
    rw [List.length_map]
    exact hI.balance
  · intro h
    show e.table.map f = []
    rw [hI.down h]
    rfl

lemma inv_cancel (e : Engine) (hI : Inv e) (rid : Nat) :
    Inv (vlc_preparser_Cancel e rid).1 := by
  refine inv_map_update e hI _ ?_ ?_ ?_ ?_ <;> intro r <;> (split <;> rfl)

lemma inv_fireTimer (e : Engine) (hI : Inv e) (rid : Nat) :
    Inv (fireTimer e rid) := by
  refine inv_map_update e hI _ ?_ ?_ ?_ ?_ <;> intro r <;> (split <;> rfl)

lemma inv_setTimeout (e : Engine) (hI : Inv e) (tmo : Nat) :
    Inv (vlc_preparser_SetTimeout e tmo) :=
  ⟨hI.nextPos, hI.alloc, hI.nodup, hI.liveBound, hI.liveRem, hI.livePic,
   hI.liveNoCb, hI.cbBound, hI.cbOnce, hI.cbPic, hI.accEnd, hI.balance, hI.down⟩

lemma inv_accept (e : Engine) (hI : Inv e) (R : ReqRecord)
    (hRrid : R.rid = e.nextId) (hRrem : 1 ≤ R.remaining) (hRpic : R.pic = false)
    (hrun : e.running = true) :
    Inv { e with
          nextId := e.nextId + 1,
          table := e.table ++ [R],
          allocLog := e.allocLog ++ [e.nextId],
          holdCount := e.holdCount + 1 } := by
  have hpos := hI.nextPos
  refine ⟨?_, ?_, ?_, ?_, ?_, ?_, ?_, ?_, hI.cbOnce, hI.cbPic, ?_, ?_, ?_⟩
  · show 1 ≤ e.nextId + 1
    omega
  · show e.allocLog ++ [e.nextId] = List.range' 1 (e.nextId + 1 - 1)
    have h1 : e.nextId + 1 - 1 = (e.nextId - 1) + 1 := by omega
    have h2 : 1 + 1 * (e.nextId - 1) = e.nextId := by omega
    rw [h1, @List.range'_concat 1 1 (e.nextId - 1), h2, ← hI.alloc]
  · show (ridsOf (e.table ++ [R])).Nodup
    rw [ridsOf_append, List.nodup_append]
    refine ⟨hI.nodup, by simp [ridsOf], ?_⟩
    intro a ha hb
    simp [ridsOf, hRrid] at hb
    rcases exists_of_mem_ridsOf ha with ⟨s, hs, he⟩
    have := (hI.liveBound s hs).2
    omega
  · intro r hr
    rcases List.mem_append.1 hr with h | h
    · obtain ⟨l, u⟩ := hI.liveBound r h
      refine ⟨l, ?_⟩
      show r.rid < e.nextId + 1
      omega
    · rw [List.mem_singleton] at h
      subst h
      rw [hRrid]
      refine ⟨hpos, ?_⟩
      show e.nextId < e.nextId + 1
      omega
  · intro r hr
    rcases List.mem_append.1 hr with h | h
    · exact hI.liveRem r h
    · rw [List.mem_singleton] at h
      subst h
      exact hRrem
  · intro r hr
    rcases List.mem_append.1 hr with h | h
    · exact hI.livePic r h
    · rw [List.mem_singleton] at h
      subst h
      intro hp
      rw [hRpic] at hp
      cases hp
  · intro r hr
    rcases List.mem_append.1 hr with h | h
    · exact hI.liveNoCb r h
    · rw [List.mem_singleton] at h
      subst h
      show cbCount e.cbLog r.rid = 0
      rw [hRrid]
      apply cbCount_eq_zero
      intro c hc
      have := (hI.cbBound c hc).2
      omega
  · intro c hc
    obtain ⟨l, u⟩ := hI.cbBound c hc
    refine ⟨l, ?_⟩
    show c.rid < e.nextId + 1
    omega
  · intro n hn
    rcases List.mem_append.1 hn with h | h
    · rcases hI.accEnd n h with h2 | h2
      · exact Or.inl (by
          show n ∈ ridsOf (e.table ++ [R])
          rw [ridsOf_append]
          exact List.mem_append_left _ h2)
      · exact Or.inr h2
    · rw [List.mem_singleton] at h
      subst h
      exact Or.inl (by
        show e.nextId ∈ ridsOf (e.table ++ [R])
        rw [ridsOf_append]
        refine List.mem_append_right _ ?_
        simp [ridsOf, hRrid])
  · show e.holdCount + 1 = e.releaseCount + (e.table ++ [R]).length
    rw [List.length_append]
    have := hI.balance
    simp only [List.length_cons, List.length_nil]
    omega
  · intro h
    show e.table ++ [R] = []
    rw [hrun] at h
    cases h

lemma inv_push (e : Engine) (hI : Inv e) (topt : Nat) (cbs : Bool) :
    Inv (vlc_preparser_Push e topt cbs).1 := by
  by_cases hc : (topt &&& domainBits = 0 ∨
      (topt &&& domainBits) &&& e.cfgTypes ≠ topt &&& domainBits ∨
      cbs = false ∨ e.running = false)
  · rw [vlc_preparser_Push, if_pos hc]
    exact hI
  · rw [vlc_preparser_Push, if_neg hc]
    push_neg at hc
    obtain ⟨h0, hsub, hcbs, hrun⟩ := hc
    refine inv_accept e hI _ rfl ?_ rfl (bool_ne_false hrun)
    apply domainCount_pos
    · have := @Nat.and_le_right topt domainBits
      rw [domainBits_eq] at this ⊢
      omega
    · exact h0

lemma inv_thumbnail (e : Engine) (hI : Inv e) (seek_arg : SeekArg) (cbs : Bool) :
    Inv (vlc_preparser_GenerateThumbnail e seek_arg cbs).1 := by
  by_cases hc : (VLC_PREPARSER_TYPE_THUMBNAIL &&& e.cfgTypes ≠
      VLC_PREPARSER_TYPE_THUMBNAIL ∨ cbs = false ∨ e.running = false)
  · rw [vlc_preparser_GenerateThumbnail, if_pos hc]
    exact hI
  · rw [vlc_preparser_GenerateThumbnail, if_neg hc]
    push_neg at hc
    exact inv_accept e hI _ rfl (Nat.le_refl 1) rfl (bool_ne_false hc.2.2)

lemma cbCount_cons (c : CbEvent) (l : List CbEvent) (n : Nat) :
    cbCount (c :: l) n = cbCount l n + if c.rid = n then 1 else 0 := by
  simp [cbCount, List.countP_cons]

lemma drainTable_cbCount (tbl : List ReqRecord) (n : Nat) :
    cbCount (drainTable tbl) n = (ridsOf tbl).count n := by
  induction tbl with
  | nil => rfl
  | cons r rest ih =>
    simp only [drainTable, List.map_cons] at *
    rw [cbCount_cons, ih, ridsOf_cons, List.count_cons]
    congr 1
    by_cases h : r.rid = n
    · rw [if_pos (by simp [termCb, h]), if_pos (by simp [h])]
    · rw [if_neg (by simp [termCb, h]), if_neg (by simp [h])]

lemma drainTable_pic (tbl : List ReqRecord) :
    ∀ c ∈ drainTable tbl, c.picNonNull = false := by
  intro c hc
  rw [drainTable] at hc
  rcases List.mem_map.1 hc with ⟨r, hr, he⟩
  have hne : (mergeStatus r.agg Outcome.interrupted == Outcome.ok) = false := by
    rw [beq_eq_false_iff_ne]
    exact mergeStatus_interrupted_ne_ok r.agg
  rw [← he]
  simp [termCb, hne]

lemma drainTable_rid (tbl : List ReqRecord) :
    ∀ c ∈ drainTable tbl, ∃ r ∈ tbl, c.rid = r.rid := by
  intro c hc
  rw [drainTable] at hc
  rcases List.mem_map.1 hc with ⟨r, hr, he⟩
  exact ⟨r, hr, by rw [← he]; simp [termCb]⟩

lemma inv_drain (e : Engine) (hI : Inv e) (tbl : List ReqRecord)
    (hrids : ridsOf tbl = ridsOf e.table) :
    Inv { e with
          running := false,
          table := [],
          cbLog := e.cbLog ++ drainTable tbl,
          releaseCount := e.releaseCount + tbl.length } := by
  have hlen : tbl.length = e.table.length := by
    have h1 : (ridsOf tbl).length = (ridsOf e.table).length := by rw [hrids]
    simpa [ridsOf] using h1
  refine ⟨hI.nextPos, hI.alloc, List.nodup_nil, ?_, ?_, ?_, ?_, ?_, ?_, ?_,
    ?_, ?_, ?_⟩
  · intro r hr
    exact absurd hr (List.not_mem_nil r)
  · intro r hr
    exact absurd hr (List.not_mem_nil r)
  · intro r hr
    exact absurd hr (List.not_mem_nil r)
  · intro r hr
    exact absurd hr (List.not_mem_nil r)
  · intro c hc
    rcases List.mem_append.1 hc with h | h
    · exact hI.cbBound c h
    · rcases drainTable_rid tbl c h with ⟨s, hs, he⟩
      have hsmem : s.rid ∈ ridsOf e.table := by
        rw [← hrids]
        exact mem_ridsOf_of_mem hs
      rcases exists_of_mem_ridsOf hsmem with ⟨u, hu, hue⟩
      have := hI.liveBound u hu
      rw [he, ← hue]
      exact this
  · intro n
    show cbCount (e.cbLog ++ drainTable tbl) n ≤ 1
    rw [cbCount_append, drainTable_cbCount, hrids]
    by_cases h : n ∈ ridsOf e.table
    · rcases exists_of_mem_ridsOf h with ⟨u, hu, hue⟩
      have h0 : cbCount e.cbLog n = 0 := by
        rw [← hue]; exact hI.liveNoCb u hu
      rw [h0, List.count_eq_one_of_mem hI.nodup h]
    · rw [List.count_eq_zero_of_not_mem h, Nat.add_zero]
      exact hI.cbOnce n
  · intro c hc hp
    rcases List.mem_append.1 hc with h | h
    · exact hI.cbPic c h hp
    · rw [drainTable_pic tbl c h] at hp
      cases hp
  · intro n hn
    refine Or.inr ?_
    show cbCount (e.cbLog ++ drainTable tbl) n = 1
    rw [cbCount_append, drainTable_cbCount, hrids]
    rcases hI.accEnd n hn with h | h
    · rcases exists_of_mem_ridsOf h with ⟨u, hu, hue⟩
      have h0 : cbCount e.cbLog n = 0 := by
        rw [← hue]; exact hI.liveNoCb u hu
      rw [h0, List.count_eq_one_of_mem hI.nodup h]
    · have h0 : n ∉ ridsOf e.table := by
        intro hmem
        rcases exists_of_mem_ridsOf hmem with ⟨u, hu, hue⟩
        have := hI.liveNoCb u hu
        rw [hue, h] at this
        exact absurd this (by omega)
      rw [List.count_eq_zero_of_not_mem h0, h]
  · show e.holdCount = e.releaseCount + tbl.length + [].length
    rw [hlen]
    have := hI.balance
    simp only [List.length_nil, Nat.add_zero]
    omega
  · intro _
    rfl

lemma inv_delete (e : Engine) (hI : Inv e) : Inv (vlc_preparser_Delete e) := by
  have hf : ∀ r : ReqRecord,
      ((fun r : ReqRecord =>
        if (VLC_PREPARSER_REQ_ID_INVALID == VLC_PREPARSER_REQ_ID_INVALID
            || r.rid == VLC_PREPARSER_REQ_ID_INVALID) then
          { r with cancelRequested := true } else r) r).rid = r.rid := by
    intro r
    simp [VLC_PREPARSER_REQ_ID_INVALID]
  exact inv_drain e hI _ (ridsOf_map_update e.table _ hf)

lemma inv_mkEngine (types tmo : Nat) : Inv (mkEngine types tmo) := by
  refine ⟨Nat.le_refl 1, rfl, List.nodup_nil, ?_, ?_, ?_, ?_, ?_, ?_, ?_, ?_,
    rfl, ?_⟩
  · intro r hr
    exact absurd hr (List.not_mem_nil r)
  · intro r hr
    exact absurd hr (List.not_mem_nil r)
  · intro r hr
    exact absurd hr (List.not_mem_nil r)
  · intro r hr
    exact absurd hr (List.not_mem_nil r)
  · intro c hc
    exact absurd hc (List.not_mem_nil c)
  · intro n
    exact Nat.zero_le 1
  · intro c hc
    exact absurd hc (List.not_mem_nil c)
  · intro n hn
    exact absurd hn (List.not_mem_nil n)
  · intro _
    rfl

lemma inv_step (e : Engine) (hI : Inv e) (a : Action) : Inv (step e a) := by
  cases a with
  | push topt cbs => exact inv_push e hI topt cbs
  | thumbnail seek_arg cbs => exact inv_thumbnail e hI seek_arg cbs
  | subtaskDone rid oc pic => exact inv_subtaskComplete e hI rid oc pic
  | cancel rid => exact inv_cancel e hI rid
  | timerFire rid => exact inv_fireTimer e hI rid
  | setTimeout tmo => exact inv_setTimeout e hI tmo
  | delete => exact inv_delete e hI

lemma inv_foldl (acts : List Action) :
    ∀ e : Engine, Inv e → Inv (acts.foldl step e) := by
  induction acts with
  | nil => intro e h; exact h
  | cons a as ih => intro e h; exact ih (step e a) (inv_step e h a)

lemma inv_run (types tmo : Nat) (acts : List Action) :
    Inv (run types tmo acts) :=
  inv_foldl acts (mkEngine types tmo) (inv_mkEngine types tmo)

lemma dead_delete (e : Engine) : Dead (vlc_preparser_Delete e) := ⟨rfl, rfl⟩

lemma dead_step (e : Engine) (h : Dead e) (a : Action) :
    Dead (step e a) ∧ (step e a).cbLog = e.cbLog ∧
    (step e a).allocLog = e.allocLog ∧
    (step e a).holdCount = e.holdCount ∧
    (step e a).releaseCount = e.releaseCount := by
  obtain ⟨hr, ht⟩ := h
  cases a with
  | push topt cbs =>
    have hif : vlc_preparser_Push e topt cbs = (e, VLC_PREPARSER_REQ_ID_INVALID) := by
      rw [vlc_preparser_Push, if_pos (Or.inr (Or.inr (Or.inr hr)))]
    simp only [step]
    rw [hif]
    exact ⟨⟨hr, ht⟩, rfl, rfl, rfl, rfl⟩
  | thumbnail seek_arg cbs =>
    have hif : vlc_preparser_GenerateThumbnail e seek_arg cbs =
        (e, VLC_PREPARSER_REQ_ID_INVALID) := by
      rw [vlc_preparser_GenerateThumbnail, if_pos (Or.inr (Or.inr hr))]
    simp only [step]
    rw [hif]
    exact ⟨⟨hr, ht⟩, rfl, rfl, rfl, rfl⟩
  | subtaskDone rid oc pic =>
    have hnm : rid ∉ ridsOf e.table := by
      rw [ht]
      exact List.not_mem_nil rid
    simp only [step]
    rw [subtaskComplete_not_mem e rid oc pic hnm]
    exact ⟨⟨hr, ht⟩, rfl, rfl, rfl, rfl⟩
  | cancel rid =>
    simp only [step]
    refine ⟨⟨hr, ?_⟩, rfl, rfl, rfl, rfl⟩
    show e.table.map _ = []
    rw [ht]
    rfl
  | timerFire rid =>
    simp only [step]
    refine ⟨⟨hr, ?_⟩, rfl, rfl, rfl, rfl⟩
    show e.table.map _ = []
    rw [ht]
    rfl
  | setTimeout tmo =>
    exact ⟨⟨hr, ht⟩, rfl, rfl, rfl, rfl⟩
  | delete =>
    simp only [step]
    refine ⟨dead_delete e, ?_, rfl, rfl, ?_⟩
    · show e.cbLog ++ drainTable (e.table.map _) = e.cbLog
      rw [ht]
      exact List.append_nil _
    · show e.releaseCount + (e.table.map _).length = e.releaseCount
      rw [ht]
      rfl

lemma dead_foldl (acts : List Action) : ∀ e : Engine, Dead e →
    Dead (acts.foldl step e) ∧ (acts.foldl step e).cbLog = e.cbLog ∧
    (acts.foldl step e).allocLog = e.allocLog ∧
    (acts.foldl step e).holdCount = e.holdCount ∧
    (acts.foldl step e).releaseCount = e.releaseCount := by
  induction acts with
  | nil =>
    intro e h
    exact ⟨h, rfl, rfl, rfl, rfl⟩
  | cons a as ih =>
    intro e h
    obtain ⟨h1, h2, h3, h4, h5⟩ := dead_step e h a
    obtain ⟨g1, g2, g3, g4, g5⟩ := ih (step e a) h1
    exact ⟨g1, g2.trans h2, g3.trans h3, g4.trans h4, g5.trans h5⟩

lemma run_append (types tmo : Nat) (l1 l2 : List Action) :
    run types tmo (l1 ++ l2) = l2.foldl step (run types tmo l1) :=
  List.foldl_append step (mkEngine types tmo) l1 l2

lemma run_concat (types tmo : Nat) (acts : List Action) (a : Action) :
    run types tmo (acts ++ [a]) = step (run types tmo acts) a :=
  run_append types tmo acts [a]

lemma run_delete_frozen (types tmo : Nat) (acts post : List Action) :
    Dead (run types tmo (acts ++ Action.delete :: post)) ∧
    (run types tmo (acts ++ Action.delete :: post)).cbLog =
      (run types tmo (acts ++ [Action.delete])).cbLog ∧
    (run types tmo (acts ++ Action.delete :: post)).allocLog =
      (run types tmo (acts ++ [Action.delete])).allocLog ∧
    (run types tmo (acts ++ Action.delete :: post)).holdCount =
      (run types tmo (acts ++ [Action.delete])).holdCount ∧
    (run types tmo (acts ++ Action.delete :: post)).releaseCount =
      (run types tmo (acts ++ [Action.delete])).releaseCount := by
  have h1 : run types tmo (acts ++ Action.delete :: post) =
      post.foldl step (step (run types tmo acts) Action.delete) := by
    rw [run_append]
    rfl
  have h2 : run types tmo (acts ++ [Action.delete]) =
      step (run types tmo acts) Action.delete := run_concat types tmo acts _
  have hd : Dead (step (run types tmo acts) Action.delete) :=
    dead_delete (run types tmo acts)
  obtain ⟨g1, g2, g3, g4, g5⟩ := dead_foldl post _ hd
  rw [h1, h2]
  exact ⟨g1, g2, g3, g4, g5⟩

lemma delete_trace_cb_one (types tmo : Nat) (acts post : List Action) (n : Nat)
    (hn : n ∈ (run types tmo (acts ++ Action.delete :: post)).allocLog) :
    cbCount (run types tmo (acts ++ Action.delete :: post)).cbLog n = 1 := by
  have hI := inv_run types tmo (acts ++ Action.delete :: post)
  rcases hI.accEnd n hn with h | h
  · exfalso
    have hd := (run_delete_frozen types tmo acts post).1
    rw [hd.2] at h
    exact absurd h (List.not_mem_nil n)
  · exact h

/-- Claim C1: along every event trace, at most one terminal callback is ever
delivered per request id, and on every trace that contains an engine
destruction, every accepted request id has its terminal callback delivered
exactly once — no matter how cancellation, timeout, worker completion and
destruction interleave. -/
theorem preparser_terminal_callback_exactly_once (types tmo : Nat)
    (acts post : List Action) (n : Nat) :
    cbCount (run types tmo acts).cbLog n ≤ 1 ∧
    (n ∈ (run types tmo (acts ++ Action.delete :: post)).allocLog →
      cbCount (run types tmo (acts ++ Action.delete :: post)).cbLog n = 1) :=
  ⟨(inv_run types tmo acts).cbOnce n,
   fun hn => delete_trace_cb_one types tmo acts post n hn⟩

/-- Witness for C1: pushing one request and destroying the engine delivers
exactly one terminal callback for id 1. -/
theorem preparser_terminal_callback_exactly_once_witness :
    cbCount (run 15 0 ([Action.push 1 true] ++ Action.delete :: [])).cbLog 1 = 1 :=
  (preparser_terminal_callback_exactly_once 15 0 [Action.push 1 true] [] 1).2
    (by decide)

/-- Claim C2: vlc_preparser_Push and vlc_preparser_GenerateThumbnail return
VLC_PREPARSER_REQ_ID_INVALID exactly when the request is rejected — empty or
unconfigured domain bitmask, absent callback set, or engine shutting down —
and a rejected request leaves the engine untouched, while every delivered
callback belongs to an accepted (allocated) id. -/
theorem preparser_reject_iff_invalid_id (types tmo : Nat) (acts : List Action)
    (type_option : Nat) (cbs : Bool) (seek_arg : SeekArg) :
    ((vlc_preparser_Push (run types tmo acts) type_option cbs).2 =
        VLC_PREPARSER_REQ_ID_INVALID ↔
      (type_option &&& domainBits = 0 ∨
       (type_option &&& domainBits) &&& (run types tmo acts).cfgTypes ≠
         type_option &&& domainBits ∨
       cbs = false ∨ (run types tmo acts).running = false)) ∧
    ((vlc_preparser_Push (run types tmo acts) type_option cbs).2 =
        VLC_PREPARSER_REQ_ID_INVALID →
      (vlc_preparser_Push (run types tmo acts) type_option cbs).1 =
        run types tmo acts) ∧
    ((vlc_preparser_GenerateThumbnail (run types tmo acts) seek_arg cbs).2 =
        VLC_PREPARSER_REQ_ID_INVALID ↔
      (VLC_PREPARSER_TYPE_THUMBNAIL &&& (run types tmo acts).cfgTypes ≠
         VLC_PREPARSER_TYPE_THUMBNAIL ∨
       cbs = false ∨ (run types tmo acts).running = false)) ∧
    ((vlc_preparser_GenerateThumbnail (run types tmo acts) seek_arg cbs).2 =
        VLC_PREPARSER_REQ_ID_INVALID →
      (vlc_preparser_GenerateThumbnail (run types tmo acts) seek_arg cbs).1 =
        run types tmo acts) ∧
    (∀ c ∈ (run types tmo acts).cbLog,
      c.rid ∈ (run types tmo acts).allocLog) := by
  have hI := inv_run types tmo acts
  refine ⟨?_, ?_, ?_, ?_, ?_⟩
  · by_cases hc : (type_option &&& domainBits = 0 ∨
        (type_option &&& domainBits) &&& (run types tmo acts).cfgTypes ≠
          type_option &&& domainBits ∨
        cbs = false ∨ (run types tmo acts).running = false)
    · rw [vlc_preparser_Push, if_pos hc]
      exact iff_of_true rfl hc
    · rw [vlc_preparser_Push, if_neg hc]
      refine iff_of_false ?_ hc
      intro h
      have h2 : (run types tmo acts).nextId = 0 := h
      have := hI.nextPos
      omega
  · intro h
    by_cases hc : (type_option &&& domainBits = 0 ∨
        (type_option &&& domainBits) &&& (run types tmo acts).cfgTypes ≠
          type_option &&& domainBits ∨
        cbs = false ∨ (run types tmo acts).running = false)
    · rw [vlc_preparser_Push, if_pos hc]
    · exfalso
      rw [vlc_preparser_Push, if_neg hc] at h
      have h2 : (run types tmo acts).nextId = 0 := h
      have := hI.nextPos
      omega
  · by_cases hc : (VLC_PREPARSER_TYPE_THUMBNAIL &&&
        (run types tmo acts).cfgTypes ≠ VLC_PREPARSER_TYPE_THUMBNAIL ∨
        cbs = false ∨ (run types tmo acts).running = false)
    · rw [vlc_preparser_GenerateThumbnail, if_pos hc]
      exact iff_of_true rfl hc
    · rw [vlc_preparser_GenerateThumbnail, if_neg hc]
      refine iff_of_false ?_ hc
      intro h
      have h2 : (run types tmo acts).nextId = 0 := h
      have := hI.nextPos
      omega
  · intro h
    by_cases hc : (VLC_PREPARSER_TYPE_THUMBNAIL &&&
        (run types tmo acts).cfgTypes ≠ VLC_PREPARSER_TYPE_THUMBNAIL ∨
        cbs = false ∨ (run types tmo acts).running = false)
    · rw [vlc_preparser_GenerateThumbnail, if_pos hc]
    · exfalso
      rw [vlc_preparser_GenerateThumbnail, if_neg hc] at h
      have h2 : (run types tmo acts).nextId = 0 := h
      have := hI.nextPos
      omega
  · intro c hc
    obtain ⟨l, u⟩ := hI.cbBound c hc
    rw [hI.alloc, List.mem_range'_1]
    have := hI.nextPos
    omega

/-- Witness for C2: pushing with an empty type bitmask is rejected and leaves
the engine unchanged. -/
theorem preparser_reject_iff_invalid_id_witness :
    (vlc_preparser_Push (run 15 0 []) 0 true).1 = run 15 0 [] :=
  (preparser_reject_iff_invalid_id 15 0 [] 0 true
    { type := SeekType.seekNone, time := 0, speed := SeekSpeed.precise }).2.1
    (by decide)

/-- Claim C3: when vlc_preparser_Delete returns, the request table is empty,
no callback is delivered by any later event, and every accepted request id
has had its terminal callback delivered exactly once. -/
theorem preparser_delete_drains (types tmo : Nat) (acts post : List Action) :
    (run types tmo (acts ++ Action.delete :: post)).table = [] ∧
    (run types tmo (acts ++ Action.delete :: post)).cbLog =
      (run types tmo (acts ++ [Action.delete])).cbLog ∧
    ∀ n ∈ (run types tmo (acts ++ Action.delete :: post)).allocLog,
      cbCount (run types tmo (acts ++ Action.delete :: post)).cbLog n = 1 := by
  obtain ⟨hd, hcb, _, _, _⟩ := run_delete_frozen types tmo acts post
  exact ⟨hd.2, hcb, fun n hn => delete_trace_cb_one types tmo acts post n hn⟩

/-- Witness for C3: a thumbnail request destroyed before completion still gets
exactly one terminal callback. -/
theorem preparser_delete_drains_witness :
    cbCount (run 15 0 ([Action.thumbnail
        { type := SeekType.seekNone, time := 0, speed := SeekSpeed.precise }
        true] ++ Action.delete :: [])).cbLog 1 = 1 :=
  (preparser_delete_drains 15 0 [Action.thumbnail
      { type := SeekType.seekNone, time := 0, speed := SeekSpeed.precise }
      true] []).2.2 1 (by decide)

/-- Claim C4: the aggregate of a list of sub-task outcomes is the maximum
under the precedence order Error(kind) > Timeout > Interrupted > Ok with ties
broken by first arrival — it is the first element of maximal rank among the
initial Ok aggregate followed by the arrivals — and an Ok outcome merged
after any recorded status never overrides it. -/
theorem status_precedence_aggregate (l : List Outcome) :
    (Outcome.ok :: l).find? (fun o => rank o == maxRank (Outcome.ok :: l)) =
      some (aggregate l) ∧
    rank (aggregate l) = maxRank (Outcome.ok :: l) ∧
    (∀ a, mergeStatus a Outcome.ok = a) := by
  obtain ⟨h1, h2⟩ := foldl_merge_spec l Outcome.ok
  exact ⟨h2, h1, mergeStatus_ok_right⟩

/-- Claim C5: vlc_preparser_Cancel returns the number of records it targeted:
the whole table count for the match-all id 0, one for a live id, and zero for
a non-zero id that is unknown or already terminal. -/
theorem vlc_preparser_Cancel_count (types tmo : Nat) (acts : List Action)
    (rid : Nat) :
    (vlc_preparser_Cancel (run types tmo acts) VLC_PREPARSER_REQ_ID_INVALID).2 =
      (run types tmo acts).table.length ∧
    (rid ≠ VLC_PREPARSER_REQ_ID_INVALID →
      rid ∈ ridsOf (run types tmo acts).table →
      (vlc_preparser_Cancel (run types tmo acts) rid).2 = 1) ∧
    (rid ≠ VLC_PREPARSER_REQ_ID_INVALID →
      (rid ∉ (run types tmo acts).allocLog ∨
        cbCount (run types tmo acts).cbLog rid = 1) →
      (vlc_preparser_Cancel (run types tmo acts) rid).2 = 0) := by
  have hI := inv_run types tmo acts
  refine ⟨?_, ?_, ?_⟩
  · show ((run types tmo acts).table.filter (fun r =>
      VLC_PREPARSER_REQ_ID_INVALID == VLC_PREPARSER_REQ_ID_INVALID ||
        r.rid == VLC_PREPARSER_REQ_ID_INVALID)).length =
      (run types tmo acts).table.length
    simp
  · intro h0 hmem
    have hne : (rid == VLC_PREPARSER_REQ_ID_INVALID) = false := by
      rw [beq_eq_false_iff_ne]
      exact h0
    show ((run types tmo acts).table.filter (fun r =>
      rid == VLC_PREPARSER_REQ_ID_INVALID || r.rid == rid)).length = 1
    have hpred : (fun r : ReqRecord =>
        (rid == VLC_PREPARSER_REQ_ID_INVALID || r.rid == rid)) =
        (fun r : ReqRecord => r.rid == rid) := by
      funext r
      rw [hne, Bool.false_or]
    rw [hpred]
    exact (filter_rid_length rid _ hI.nodup).1 hmem
  · intro h0 hcase
    have hnm : rid ∉ ridsOf (run types tmo acts).table := by
      intro hmem
      rcases exists_of_mem_ridsOf hmem with ⟨u, hu, hue⟩
      rcases hcase with h | h
      · apply h
        rw [hI.alloc, List.mem_range'_1]
        have := hI.liveBound u hu
        have hp := hI.nextPos
        omega
      · have := hI.liveNoCb u hu
        rw [hue, h] at this
        exact absurd this (by omega)
    have hne : (rid == VLC_PREPARSER_REQ_ID_INVALID) = false := by
      rw [beq_eq_false_iff_ne]
      exact h0
    show ((run types tmo acts).table.filter (fun r =>
      rid == VLC_PREPARSER_REQ_ID_INVALID || r.rid == rid)).length = 0
    have hpred : (fun r : ReqRecord =>
        (rid == VLC_PREPARSER_REQ_ID_INVALID || r.rid == rid)) =
        (fun r : ReqRecord => r.rid == rid) := by
      funext r
      rw [hne, Bool.false_or]
    rw [hpred]
    exact (filter_rid_length rid _ hI.nodup).2 hnm

/-- Witness for C5: cancelling the single live request returns 1. -/
theorem vlc_preparser_Cancel_count_witness :
    (vlc_preparser_Cancel (run 15 0 [Action.push 1 true]) 1).2 = 1 :=
  (vlc_preparser_Cancel_count 15 0 [Action.push 1 true] 1).2.1 (by decide)
    (by decide)

/-- Claim C6: in every delivered terminal callback, the thumbnail picture
argument is non-null only when the status is Ok, and only for the
thumbnail-family on_ended callback; on failure, timeout or cancellation the
picture is null. -/
theorem thumbnail_picture_only_on_success (types tmo : Nat)
    (acts : List Action) :
    ∀ c ∈ (run types tmo acts).cbLog, c.picNonNull = true →
      c.status = Outcome.ok ∧ c.kind = ReqKind.thumbnailFamily :=
  fun c hc hp => (inv_run types tmo acts).cbPic c hc hp

/-- Witness for C6: a successful thumbnail request delivers an Ok on_ended
callback carrying a non-null picture. -/
theorem thumbnail_picture_only_on_success_witness :
    ({ rid := 1, kind := ReqKind.thumbnailFamily, status := Outcome.ok,
       picNonNull := true } : CbEvent).status = Outcome.ok ∧
    ({ rid := 1, kind := ReqKind.thumbnailFamily, status := Outcome.ok,
       picNonNull := true } : CbEvent).kind = ReqKind.thumbnailFamily :=
  thumbnail_picture_only_on_success 15 0
    [Action.thumbnail
      { type := SeekType.seekNone, time := 0, speed := SeekSpeed.precise }
      true,
     Action.subtaskDone 1 Outcome.ok true]
    { rid := 1, kind := ReqKind.thumbnailFamily, status := Outcome.ok,
      picNonNull := true } (by decide) (by decide)

/-- Claim C7: the declared C signature of vlc_preparser_GenerateThumbnail has
no timeout parameter, although the function's own doc comment documents a
@param timeout — the claimed per-request timeout does not exist in the
declaration. -/
theorem generateThumbnail_timeout_param_missing :
    "timeout" ∈ generateThumbnailDocumentedParams ∧
    "timeout" ∉ generateThumbnailSignatureParams := by decide

/-- Claim C8: every request id ever returned within one engine lifetime is
non-zero, the ids are exactly 1, 2, … in allocation order, and a later
allocation yields a strictly greater id (monotonic, never reused). -/
theorem vlc_preparser_req_id_monotonic (types tmo : Nat) (acts : List Action) :
    (∀ n ∈ (run types tmo acts).allocLog, VLC_PREPARSER_REQ_ID_INVALID < n) ∧
    (run types tmo acts).allocLog =
      List.range' 1 (run types tmo acts).allocLog.length ∧
    ∀ i j : Fin (run types tmo acts).allocLog.length,
      ((run types tmo acts).allocLog.get i <
        (run types tmo acts).allocLog.get j ↔ i < j) := by
  have hI := inv_run types tmo acts
  have hlen : (run types tmo acts).allocLog.length =
      (run types tmo acts).nextId - 1 := by
    rw [hI.alloc]
    simp
  refine ⟨?_, ?_, ?_⟩
  · intro n hmem
    rw [hI.alloc, List.mem_range'_1] at hmem
    have h1 := hmem.1
    have h2 : VLC_PREPARSER_REQ_ID_INVALID = 0 := rfl
    omega
  · rw [hlen, hI.alloc]
  · intro i j
    have hs : List.Sorted (· < ·) (run types tmo acts).allocLog := by
      rw [hI.alloc]
      exact List.pairwise_lt_range' 1 _
    exact (hs.get_strictMono).lt_iff_lt

/-- Witness for C8: the first allocated id is strictly above the invalid
sentinel 0. -/
theorem vlc_preparser_req_id_monotonic_witness :
    VLC_PREPARSER_REQ_ID_INVALID < 1 :=
  (vlc_preparser_req_id_monotonic 15 0 [Action.push 1 true]).1 1 (by decide)

/-- Claim C9: the engine holds exactly one input-item reference per live
request — holds always equal releases plus the live-record count — and after
destruction every engine-caused hold has exactly one matching release. -/
theorem preparser_item_hold_release_balance (types tmo : Nat)
    (acts post : List Action) :
    (run types tmo acts).holdCount =
      (run types tmo acts).releaseCount + (run types tmo acts).table.length ∧
    (run types tmo (acts ++ Action.delete :: post)).holdCount =
      (run types tmo (acts ++ Action.delete :: post)).releaseCount := by
  refine ⟨(inv_run types tmo acts).balance, ?_⟩
  have hI := inv_run types tmo (acts ++ Action.delete :: post)
  have hd := (run_delete_frozen types tmo acts post).1
  have hb := hI.balance
  rw [hd.2] at hb
  simpa using hb

/-- Claim C10: the four type flags and two option flags are six pairwise
disjoint single bits (powers of two), every flag word decomposes uniquely
into its six flag booleans, and FETCHMETA_ALL is exactly the union of
FETCHMETA_LOCAL and FETCHMETA_NET with no other domain or option bit. -/
theorem preparser_flags_disjoint_unique :
    [VLC_PREPARSER_TYPE_PARSE, VLC_PREPARSER_TYPE_FETCHMETA_LOCAL,
     VLC_PREPARSER_TYPE_FETCHMETA_NET, VLC_PREPARSER_TYPE_THUMBNAIL,
     VLC_PREPARSER_OPTION_INTERACT, VLC_PREPARSER_OPTION_SUBITEMS] =
      [2 ^ 0, 2 ^ 1, 2 ^ 2, 2 ^ 3, 2 ^ 12, 2 ^ 13] ∧
    List.Pairwise (fun a b => a &&& b = 0)
      [VLC_PREPARSER_TYPE_PARSE, VLC_PREPARSER_TYPE_FETCHMETA_LOCAL,
       VLC_PREPARSER_TYPE_FETCHMETA_NET, VLC_PREPARSER_TYPE_THUMBNAIL,
       VLC_PREPARSER_OPTION_INTERACT, VLC_PREPARSER_OPTION_SUBITEMS] ∧
    (∀ x, decomposeFlags (composeFlags x) = x) ∧
    VLC_PREPARSER_TYPE_FETCHMETA_ALL =
      (VLC_PREPARSER_TYPE_FETCHMETA_LOCAL |||
        VLC_PREPARSER_TYPE_FETCHMETA_NET) ∧
    VLC_PREPARSER_TYPE_FETCHMETA_ALL &&&
      (VLC_PREPARSER_TYPE_PARSE ||| VLC_PREPARSER_TYPE_THUMBNAIL |||
       VLC_PREPARSER_OPTION_INTERACT ||| VLC_PREPARSER_OPTION_SUBITEMS) = 0 := by
  refine ⟨by decide, by decide, ?_, by decide, by decide⟩
  decide

end VLC
